import Mathlib

/-!
Verification development for the PockitAI function-calling orchestrator
(src/PockitAI.ts).  The definitions below are a shallow embedding of the
class methods `parseFunctionCall`, `buildSystemPromptWithTools`,
`registerTool`, `unregisterTool`, `executeTool` and `generateWithTools`,
together with the JSON (de)serialization they rely on.
-/

set_option maxRecDepth 10000

mutual
/-- JSON values, with dedicated mutual list types so that all recursive
functions over them are structural (and hence kernel-reducible). -/
inductive Json where
  | null : Json
  | bool : Bool → Json
  | num : Int → Json
  | str : String → Json
  | arr : JsonList → Json
  | obj : JsonFields → Json
deriving DecidableEq

inductive JsonList where
  | nil : JsonList
  | cons : Json → JsonList → JsonList
deriving DecidableEq

inductive JsonFields where
  | nil : JsonFields
  | cons : String → Json → JsonFields → JsonFields
deriving DecidableEq
end

/-- Left brace character, written by code point. -/
def lbraceChar : Char := Char.ofNat 123

/-- Right brace character, written by code point. -/
def rbraceChar : Char := Char.ofNat 125

/-- Apostrophe character, written by code point. -/
def aposChar : Char := Char.ofNat 39

/-- Apostrophe as a one-character string. -/
def aposStr : String := String.mk [aposChar]

/-- Whitespace recognized by the JSON grammar. -/
def jsonWsB (c : Char) : Bool :=
  c == ' ' || c == Char.ofNat 9 || c == Char.ofNat 10 || c == Char.ofNat 13

/-- Whitespace removed by JavaScript String.prototype.trim (common subset). -/
def jsTrimWsB (c : Char) : Bool :=
  c == ' ' || c == Char.ofNat 9 || c == Char.ofNat 10 || c == Char.ofNat 13
    || c == Char.ofNat 11 || c == Char.ofNat 12

/-- Drop leading JSON whitespace. -/
def skipWs : List Char → List Char
  | [] => []
  | c :: rest => if jsonWsB c then skipWs rest else c :: rest

/-- Model of String.prototype.trim on a character list. -/
def trimChars (s : List Char) : List Char :=
  ((s.dropWhile jsTrimWsB).reverse.dropWhile jsTrimWsB).reverse

/-- Decode a single JSON string escape character (common subset). -/
def decodeEsc (e : Char) : Option Char :=
  if e == '"' then some '"'
  else if e == '\\' then some '\\'
  else if e == '/' then some '/'
  else if e == 'n' then some (Char.ofNat 10)
  else if e == 't' then some (Char.ofNat 9)
  else if e == 'r' then some (Char.ofNat 13)
  else if e == 'b' then some (Char.ofNat 8)
  else if e == 'f' then some (Char.ofNat 12)
  else none

/-- Parse the body of a JSON string after the opening quote, returning the
decoded characters and the remaining input. -/
def parseStrBody : List Char → Option (List Char × List Char)
  | [] => none
  | c :: rest =>
    if c == '"' then some ([], rest)
    else if c == '\\' then
      match rest with
      | [] => none
      | e :: rest2 =>
        match decodeEsc e with
        | none => none
        | some d =>
          match parseStrBody rest2 with
          | none => none
          | some (cs, rem) => some (d :: cs, rem)
    else
      match parseStrBody rest with
      | none => none
      | some (cs, rem) => some (c :: cs, rem)

/-- Numeric value of a digit character. -/
def digitsToNat (ds : List Char) : Nat :=
  ds.foldl (fun a c => a * 10 + (c.toNat - 48)) 0

/-- Parse a JSON integer literal (optional minus, one or more digits). -/
def parseNum : List Char → Option (Json × List Char)
  | [] => none
  | c :: rest =>
    if c == '-' then
      let ds := rest.takeWhile Char.isDigit
      let rem := rest.dropWhile Char.isDigit
      if ds.isEmpty then none
      else some (Json.num (-(Int.ofNat (digitsToNat ds))), rem)
    else if c.isDigit then
      let ds := (c :: rest).takeWhile Char.isDigit
      let rem := (c :: rest).dropWhile Char.isDigit
      some (Json.num (Int.ofNat (digitsToNat ds)), rem)
    else none

/-- Reverse-append for accumulated object fields. -/
def revFieldsAux : JsonFields → JsonFields → JsonFields
  | JsonFields.nil, acc => acc
  | JsonFields.cons k v rest, acc => revFieldsAux rest (JsonFields.cons k v acc)

/-- Reverse accumulated object fields. -/
def revFields (fs : JsonFields) : JsonFields := revFieldsAux fs JsonFields.nil

/-- Reverse-append for accumulated array elements. -/
def revElemsAux : JsonList → JsonList → JsonList
  | JsonList.nil, acc => acc
  | JsonList.cons x rest, acc => revElemsAux rest (JsonList.cons x acc)

/-- Reverse accumulated array elements. -/
def revElems (xs : JsonList) : JsonList := revElemsAux xs JsonList.nil

/-- Parser modes: a value, the inside of an object, or the inside of an
array (with the fields or elements accumulated so far, in reverse). -/
inductive PMode where
  | val : PMode
  | objStart : PMode
  | objMore : JsonFields → PMode
  | arrStart : PMode
  | arrMore : JsonList → PMode

/-- Fuel-based recursive-descent parser for the JSON subset used by the
orchestrator (objects, arrays, strings, integers, booleans, null).  The
fuel makes the recursion structural so concrete inputs evaluate in the
kernel.  Models the accepting behavior of JSON.parse on this subset. -/
def parseJ : Nat → PMode → List Char → Option (Json × List Char)
  | 0, _, _ => none
  | Nat.succ fuel, PMode.val, s =>
    match skipWs s with
    | [] => none
    | c :: rest =>
      if c == '"' then
        match parseStrBody rest with
        | none => none
        | some (cs, rem) => some (Json.str (String.mk cs), rem)
      else if c == 't' then
        match rest with
        | 'r' :: 'u' :: 'e' :: rem => some (Json.bool true, rem)
        | _ => none
      else if c == 'f' then
        match rest with
        | 'a' :: 'l' :: 's' :: 'e' :: rem => some (Json.bool false, rem)
        | _ => none
      else if c == 'n' then
        match rest with
        | 'u' :: 'l' :: 'l' :: rem => some (Json.null, rem)
        | _ => none
      else if c == lbraceChar then parseJ fuel PMode.objStart rest
      else if c == '[' then parseJ fuel PMode.arrStart rest
      else parseNum (c :: rest)
  | Nat.succ fuel, PMode.objStart, s =>
    match skipWs s with
    | [] => none
    | c :: rest =>
      if c == rbraceChar then some (Json.obj JsonFields.nil, rest)
      else if c == '"' then
        match parseStrBody rest with
        | none => none
        | some (ks, rem1) =>
          match skipWs rem1 with
          | ':' :: rem2 =>
            match parseJ fuel PMode.val rem2 with
            | none => none
            | some (v, rem3) =>
              parseJ fuel (PMode.objMore (JsonFields.cons (String.mk ks) v JsonFields.nil)) rem3
          | _ => none
      else none
  | Nat.succ fuel, PMode.objMore acc, s =>
    match skipWs s with
    | [] => none
    | c :: rest =>
      if c == rbraceChar then some (Json.obj (revFields acc), rest)
      else if c == ',' then
        match skipWs rest with
        | '"' :: rest2 =>
          match parseStrBody rest2 with
          | none => none
          | some (ks, rem1) =>
            match skipWs rem1 with
            | ':' :: rem2 =>
              match parseJ fuel PMode.val rem2 with
              | none => none
              | some (v, rem3) =>
                parseJ fuel (PMode.objMore (JsonFields.cons (String.mk ks) v acc)) rem3
            | _ => none
        | _ => none
      else none
  | Nat.succ fuel, PMode.arrStart, s =>
    match skipWs s with
    | [] => none
    | c :: rest =>
      if c == ']' then some (Json.arr JsonList.nil, rest)
      else
        match parseJ fuel PMode.val (c :: rest) with
        | none => none
        | some (v, rem) => parseJ fuel (PMode.arrMore (JsonList.cons v JsonList.nil)) rem
  | Nat.succ fuel, PMode.arrMore acc, s =>
    match skipWs s with
    | [] => none
    | c :: rest =>
      if c == ']' then some (Json.arr (revElems acc), rest)
      else if c == ',' then
        match parseJ fuel PMode.val rest with
        | none => none
        | some (v, rem) => parseJ fuel (PMode.arrMore (JsonList.cons v acc)) rem
      else none

/-- Model of JSON.parse: parse one value and require only whitespace to
remain.  Returns none where JSON.parse would throw. -/
def jsonParse (s : List Char) : Option Json :=
  match parseJ (2 * s.length + 8) PMode.val s with
  | some (v, rem) => if (skipWs rem).isEmpty then some v else none
  | none => none

/-- Index of the first occurrence of `pat` in a character list. -/
def firstIdxOf (pat : List Char) : List Char → Option Nat
  | [] => if pat.isEmpty then some 0 else none
  | c :: rest =>
    if pat.isPrefixOf (c :: rest) then some 0
    else (firstIdxOf pat rest).map (· + 1)

/-- Semantics of the non-greedy dot-all regex `open(.*?)close`: the content
between the first occurrence of the open tag and the first occurrence of
the close tag after it, if both exist. -/
def extractTagged (openTag closeTag : List Char) (s : List Char) : Option (List Char) :=
  match firstIdxOf openTag s with
  | none => none
  | some i =>
    let afterOpen := s.drop (i + openTag.length)
    match firstIdxOf closeTag afterOpen with
    | none => none
    | some j => some (afterOpen.take j)

/-- Last-wins lookup of a key in JSON object fields (JavaScript object
property semantics for duplicate keys). -/
def fieldsGet : JsonFields → String → Option Json
  | JsonFields.nil, _ => none
  | JsonFields.cons k v rest, key =>
    match fieldsGet rest key with
    | some r => some r
    | none => if k == key then some v else none

/-- Model of JavaScript property access `v.key`: none plays undefined. -/
def objGet (v : Json) (key : String) : Option Json :=
  match v with
  | Json.obj fs => fieldsGet fs key
  | _ => none

/-- JavaScript truthiness of a JSON value. -/
def jsTruthy : Json → Bool
  | Json.null => false
  | Json.bool b => b
  | Json.num n => n != 0
  | Json.str s => s != ""
  | Json.arr _ => true
  | Json.obj _ => true

/-- Model of `a || b` where `a` may be the undefined property access. -/
def jsOrD (a : Option Json) (b : Json) : Json :=
  match a with
  | none => b
  | some v => if jsTruthy v then v else b

/-- A parsed function call: `name` is the raw `name` property of the parsed
body (undefined when absent), `parameters` the result of
`parsed.parameters || parsed.arguments || { }`. -/
structure FunctionCall where
  name : Option Json
  parameters : Json
deriving DecidableEq

/-- The Llama 3.1 open tag. -/
def fnOpenTag : List Char := "<function>".data

/-- The Llama 3.1 close tag. -/
def fnCloseTag : List Char := "</function>".data

/-- The Hermes open tag. -/
def tcOpenTag : List Char := "<tool_call>".data

/-- The Hermes close tag. -/
def tcCloseTag : List Char := "</tool_call>".data

/-- The field extraction applied to a successfully parsed non-null
envelope body.  On every non-null JSON value the JavaScript property
accesses are safe, with none playing undefined (the only value on which
`parsed.name` would throw inside the try block is JSON null, handled
separately in parseFunctionCall). -/
def callOfBody (parsed : Json) : FunctionCall :=
  { name := objGet parsed "name"
    parameters := jsOrD (objGet parsed "parameters")
      (jsOrD (objGet parsed "arguments") (Json.obj JsonFields.nil)) }

/-- Shallow embedding of AICore.parseFunctionCall: try the
`<function>` envelope, then the `<tool_call>` envelope; on a match, trim
and JSON-parse the inner text and read out name and parameters.  The
single catch block absorbs both failure modes of the try body: a body
that does not parse as JSON, and a body that parses to JSON null — on
which the `parsed.name` property access throws a TypeError — so both
return none, as does the absence of any envelope. -/
def parseFunctionCall (response : String) : Option FunctionCall :=
  let m :=
    match extractTagged fnOpenTag fnCloseTag response.data with
    | some inner => some inner
    | none => extractTagged tcOpenTag tcCloseTag response.data
  match m with
  | none => none
  | some inner =>
    match jsonParse (trimChars inner) with
    | none => none
    | some Json.null => none
    | some parsed => some (callOfBody parsed)

/-- Hex digit character for an escape code. -/
def hexDigitChar (n : Nat) : Char :=
  if n < 10 then Char.ofNat (48 + n) else Char.ofNat (87 + n)

/-- JSON.stringify escaping of a single character inside a string. -/
def escChar (c : Char) : List Char :=
  if c == '"' then ['\\', '"']
  else if c == '\\' then ['\\', '\\']
  else if c == Char.ofNat 10 then ['\\', 'n']
  else if c == Char.ofNat 9 then ['\\', 't']
  else if c == Char.ofNat 13 then ['\\', 'r']
  else if c == Char.ofNat 8 then ['\\', 'b']
  else if c == Char.ofNat 12 then ['\\', 'f']
  else if c.toNat < 32 then
    ['\\', 'u', '0', '0', hexDigitChar (c.toNat / 16), hexDigitChar (c.toNat % 16)]
  else [c]

/-- JSON.stringify escaping of a whole string (without the quotes). -/
def escapeJsonString (s : String) : String :=
  String.mk ((s.data.map escChar).flatten)

/-- A JSON string literal as produced by JSON.stringify. -/
def quoteJson (s : String) : String :=
  "\"" ++ escapeJsonString s ++ "\""

/-- Left brace as a one-character string. -/
def lbraceStr : String := String.mk [lbraceChar]

/-- Right brace as a one-character string. -/
def rbraceStr : String := String.mk [rbraceChar]

mutual
/-- Model of compact JSON.stringify (no spacing, insertion order). -/
def stringifyJson : Json → String
  | Json.null => "null"
  | Json.bool true => "true"
  | Json.bool false => "false"
  | Json.num n => toString n
  | Json.str s => quoteJson s
  | Json.arr xs => "[" ++ stringifyElems xs ++ "]"
  | Json.obj fs => lbraceStr ++ stringifyFields fs ++ rbraceStr

/-- Serialize array elements, comma separated. -/
def stringifyElems : JsonList → String
  | JsonList.nil => ""
  | JsonList.cons x t =>
    stringifyJson x ++ (match t with | JsonList.nil => "" | _ => ",") ++ stringifyElems t

/-- Serialize object fields, comma separated. -/
def stringifyFields : JsonFields → String
  | JsonFields.nil => ""
  | JsonFields.cons k v t =>
    quoteJson k ++ ":" ++ stringifyJson v
      ++ (match t with | JsonFields.nil => "" | _ => ",") ++ stringifyFields t
end

mutual
/-- JavaScript string coercion of a JSON value (String(v)). -/
def jsToString : Json → String
  | Json.null => "null"
  | Json.bool true => "true"
  | Json.bool false => "false"
  | Json.num n => toString n
  | Json.str s => s
  | Json.obj _ => "[object Object]"
  | Json.arr xs => jsArrToString xs

/-- JavaScript Array.prototype.toString: elements joined by commas, with
null elements rendered empty. -/
def jsArrToString : JsonList → String
  | JsonList.nil => ""
  | JsonList.cons x t =>
    (match x with | Json.null => "" | y => jsToString y)
      ++ (match t with | JsonList.nil => "" | _ => ",") ++ jsArrToString t
end

/-- JavaScript string coercion where none plays undefined. -/
def jsDisplay : Option Json → String
  | none => "undefined"
  | some v => jsToString v

/-- A registered tool implementation: receives the parameters value and
either returns a result or raises (models sync and async uniformly, since
the loop fully awaits each call). -/
def ToolImpl : Type := Json → Except String Json

/-- The tool registry: name to implementation map (Map iteration details
are unobservable through get, set and delete). -/
def Registry : Type := List (String × ToolImpl)

/-- Model of Map.prototype.get on the registry. -/
def lookupImpl : Registry → String → Option ToolImpl
  | [], _ => none
  | (k, impl) :: rest, n => if k == n then some impl else lookupImpl rest n

/-- Shallow embedding of AICore.registerTool. -/
def registerTool (reg : Registry) (n : String) (impl : ToolImpl) : Registry :=
  (n, impl) :: reg

/-- Shallow embedding of AICore.unregisterTool. -/
def unregisterTool (reg : Registry) (n : String) : Registry :=
  reg.filter (fun kv => kv.1 != n)

/-- The tool-not-registered error message for a displayed name. -/
def notRegisteredMsg (display : String) : String :=
  "Tool " ++ aposStr ++ display ++ aposStr ++ " is not registered"

/-- Runtime key of a parsed call name: only a string name can hit a
registry entry (Map keys are the registered strings). -/
def toolNameKey : Option Json → Option String
  | some (Json.str s) => some s
  | _ => none

/-- Shallow embedding of AICore.executeTool: look the name up in the
registry, fail with the not-registered error when absent, otherwise invoke
the implementation with the parameters and return its settled result.  The
name is the raw parsed value so that the loop can pass through whatever
the envelope contained. -/
def executeTool (reg : Registry) (name : Option Json) (params : Json) : Except String Json :=
  match toolNameKey name with
  | some s =>
    match lookupImpl reg s with
    | some impl => impl params
    | none => Except.error (notRegisteredMsg (jsDisplay name))
  | none => Except.error (notRegisteredMsg (jsDisplay name))

/-- Message roles of the conversation. -/
inductive Role where
  | system : Role
  | user : Role
  | assistant : Role
  | tool : Role
deriving DecidableEq

/-- One conversation message. -/
structure Msg where
  role : Role
  content : String
  tool_call_id : Option String
deriving DecidableEq

/-- An assistant message (no tool_call_id). -/
def assistantMsg (content : String) : Msg := ⟨Role.assistant, content, none⟩

/-- A tool message carrying a tool_call_id. -/
def toolMsg (content : String) (id : String) : Msg := ⟨Role.tool, content, some id⟩

/-- The array state of one generateWithTools invocation: the caller array
and the private working copy created by the array spread. -/
structure ArrSt where
  caller : List Msg
  current : List Msg
deriving DecidableEq

/-- Model of currentMessages.push: only the working copy grows. -/
def pushCur (st : ArrSt) (m : Msg) : ArrSt := ⟨st.caller, st.current ++ [m]⟩

/-- Serialization of a tool result into the tool message content: strings
pass through, anything else is JSON.stringify output. -/
def toolResponseString : Json → String
  | Json.str s => s
  | r => stringifyJson r

deriving instance DecidableEq for Except

/-- Observable outcome of one generateWithTools invocation: the settled
result (final text or propagated provider error), the array state, the
number of completion requests issued, and the number of tool calls
dispatched. -/
structure Outcome where
  result : Except String String
  st : ArrSt
  reqCount : Nat
  calls : Nat
deriving DecidableEq

/-- The while loop of generateWithTools.  `fuel` is the number of loop
iterations still allowed (maxToolCalls minus the calls dispatched so far,
which is `count`); `reqIdx` numbers the completion requests issued to the
provider so far.  When fuel runs out the final unconditional completion
request is issued and its text returned verbatim. -/
def loopAux (p : Nat → Except String String) (reg : Registry) :
    Nat → Nat → Nat → ArrSt → Outcome
  | 0, count, reqIdx, st =>
    match p reqIdx with
    | Except.error e => ⟨Except.error e, st, reqIdx + 1, count⟩
    | Except.ok t => ⟨Except.ok t, st, reqIdx + 1, count⟩
  | Nat.succ fuel, count, reqIdx, st =>
    match p reqIdx with
    | Except.error e => ⟨Except.error e, st, reqIdx + 1, count⟩
    | Except.ok response =>
      match parseFunctionCall response with
      | none => ⟨Except.ok response, st, reqIdx + 1, count⟩
      | some fc =>
        let count' := count + 1
        let st1 := pushCur st (assistantMsg response)
        match executeTool reg fc.name fc.parameters with
        | Except.ok result =>
          loopAux p reg fuel count' (reqIdx + 1)
            (pushCur st1 (toolMsg (toolResponseString result) (toString count')))
        | Except.error m =>
          loopAux p reg fuel count' (reqIdx + 1)
            (pushCur st1 (toolMsg ("Error: " ++ m) (toString count')))

/-- Shallow embedding of AICore.generateWithTools.  The provider is the
completion backend indexed by request number; `maxToolCalls?` models the
options field with its nullish-coalescing default of 5; the working copy
of the caller message array is initialized by the spread copy. -/
def generateWithTools (p : Nat → Except String String) (reg : Registry)
    (maxToolCalls? : Option Nat) (messages : List Msg) : Outcome :=
  loopAux p reg (maxToolCalls?.getD 5) 0 0 ⟨messages, messages⟩

/-- Separator join modelling Array.prototype.join. -/
def joinSep (sep : String) : List String → String
  | [] => ""
  | [s] => s
  | s :: r :: t => s ++ sep ++ joinSep sep (r :: t)

/-- The function declaration part of a tool definition (TS interface
FunctionDefinition): name, description, and the JSON-schema parameters
object kept as a raw JSON value. -/
structure FunctionDefinition where
  name : String
  description : String
  parameters : Json
deriving DecidableEq

/-- A tool definition (TS interface ToolDefinition): the constant type tag
plus the function declaration. -/
structure ToolDefinition where
  function : FunctionDefinition
deriving DecidableEq

/-- The runtime object shape of a tool definition, as JSON.stringify sees
it (insertion order of the interface fields). -/
def toolDefToJson (t : ToolDefinition) : Json :=
  Json.obj (JsonFields.cons "type" (Json.str "function")
    (JsonFields.cons "function" (Json.obj
      (JsonFields.cons "name" (Json.str t.function.name)
        (JsonFields.cons "description" (Json.str t.function.description)
          (JsonFields.cons "parameters" t.function.parameters JsonFields.nil))))
      JsonFields.nil))

/-- JSON.stringify(t, null, 0) of one tool definition. -/
def serializeToolDef (t : ToolDefinition) : String :=
  stringifyJson (toolDefToJson t)

/-- The fixed header line above the serialized tools. -/
def promptHeaderText : String := "You have access to the following functions:"

/-- The fixed instruction block below the serialized tools. -/
def promptInstructions : String :=
  "When you need to call a function, respond ONLY with:\n<function>\x7b\"name\": \"function_name\", \"parameters\": \x7b\"param1\": \"value1\"\x7d\x7d</function>\n\nDo not add any other text when calling a function. Put the entire function call on one line."

/-- Shallow embedding of AICore.buildSystemPromptWithTools: the template
literal around the newline-joined compact serializations of the tools. -/
def buildSystemPromptWithTools (basePrompt : String) (tools : List ToolDefinition) : String :=
  let toolsJson := joinSep "\n" (tools.map serializeToolDef)
  basePrompt ++ "\n\n" ++ promptHeaderText ++ "\n" ++ toolsJson ++ "\n\n" ++ promptInstructions

/-- Split a character list at newlines (the lines of the text, with no
trailing-newline special casing). -/
def splitNl : List Char → List (List Char)
  | [] => [[]]
  | c :: rest =>
    if c == Char.ofNat 10 then [] :: splitNl rest
    else
      match splitNl rest with
      | [] => [[c]]
      | l :: ls => (c :: l) :: ls

/-- Appending strings concatenates their character data. -/
theorem strDataAppend (s t : String) : (s ++ t).data = s.data ++ t.data := rfl

/-- After unregisterTool the name no longer resolves. -/
theorem lookupImpl_unregister (reg : Registry) (n : String) :
    lookupImpl (unregisterTool reg n) n = none := by
  induction reg with
  | nil => rfl
  | cons kv rest ih =>
    by_cases h : kv.1 = n
    · simpa [unregisterTool, List.filter_cons, h] using ih
    · simpa [unregisterTool, List.filter_cons, h, lookupImpl] using ih

/-- C6: executeTool on a string name rejects with the not-registered error
exactly when the registry has no entry for the name; with an entry it
dispatches to the implementation and returns its settled result; a
freshly registered name dispatches, and an unregistered one rejects
again. -/
theorem executeTool_registry_spec :
    (∀ (reg : Registry) (n : String) (params : Json),
        lookupImpl reg n = none →
        executeTool reg (some (Json.str n)) params = Except.error (notRegisteredMsg n))
  ∧ (∀ (reg : Registry) (n : String) (impl : ToolImpl) (params : Json),
        lookupImpl reg n = some impl →
        executeTool reg (some (Json.str n)) params = impl params)
  ∧ (∀ (reg : Registry) (n : String) (impl : ToolImpl) (params : Json),
        executeTool (registerTool reg n impl) (some (Json.str n)) params = impl params)
  ∧ (∀ (reg : Registry) (n : String) (params : Json),
        executeTool (unregisterTool reg n) (some (Json.str n)) params
          = Except.error (notRegisteredMsg n)) := by
  refine ⟨?_, ?_, ?_, ?_⟩
  · intro reg n params h
    simp [executeTool, toolNameKey, h, jsDisplay, jsToString]
  · intro reg n impl params h
    simp [executeTool, toolNameKey, h]
  · intro reg n impl params
    simp [executeTool, toolNameKey, registerTool, lookupImpl]
  · intro reg n params
    simp [executeTool, toolNameKey, lookupImpl_unregister, jsDisplay, jsToString]

/-- C6 witness: a concrete register, execute, unregister round trip. -/
theorem executeTool_registry_spec_witness :
    executeTool [] (some (Json.str "f")) Json.null = Except.error (notRegisteredMsg "f")
  ∧ executeTool (registerTool [] "f" (fun _ => Except.ok (Json.num 7)))
      (some (Json.str "f")) Json.null = Except.ok (Json.num 7)
  ∧ executeTool (unregisterTool (registerTool [] "f" (fun _ => Except.ok (Json.num 7))) "f")
      (some (Json.str "f")) Json.null = Except.error (notRegisteredMsg "f") :=
  ⟨executeTool_registry_spec.1 [] "f" Json.null rfl,
   executeTool_registry_spec.2.2.1 [] "f" (fun _ => Except.ok (Json.num 7)) Json.null,
   executeTool_registry_spec.2.2.2 (registerTool [] "f" (fun _ => Except.ok (Json.num 7))) "f" Json.null⟩

/-- C8: if the completion request the loop is about to issue fails, the
whole call settles with exactly that error: the state is unchanged, the
failing request is the last one issued (no retry) and no further tool
call is dispatched; at top level a first-request failure propagates
verbatim. -/
theorem generateWithTools_provider_failure :
    (∀ (p : Nat → Except String String) (reg : Registry) (fuel count reqIdx : Nat)
        (st : ArrSt) (e : String), p reqIdx = Except.error e →
        loopAux p reg fuel count reqIdx st = ⟨Except.error e, st, reqIdx + 1, count⟩)
  ∧ (∀ (p : Nat → Except String String) (reg : Registry) (mo : Option Nat)
        (msgs : List Msg) (e : String), p 0 = Except.error e →
        generateWithTools p reg mo msgs = ⟨Except.error e, ⟨msgs, msgs⟩, 1, 0⟩) := by
  constructor
  · intro p reg fuel count reqIdx st e h
    cases fuel <;> simp [loopAux, h]
  · intro p reg mo msgs e h
    cases hN : mo.getD 5 <;> simp [generateWithTools, hN, loopAux, h]

/-- C8 witness: a provider that fails on the first request. -/
theorem generateWithTools_provider_failure_witness :
    generateWithTools (fun _ => Except.error "worker crashed") [] none []
      = ⟨Except.error "worker crashed", ⟨[], []⟩, 1, 0⟩ :=
  generateWithTools_provider_failure.2 (fun _ => Except.error "worker crashed") [] none [] "worker crashed" rfl

/-- The loop never touches the caller array. -/
theorem loopAux_caller (p : Nat → Except String String) (reg : Registry) :
    ∀ (fuel count reqIdx : Nat) (st : ArrSt),
      (loopAux p reg fuel count reqIdx st).st.caller = st.caller := by
  intro fuel
  induction fuel with
  | zero =>
    intro count reqIdx st
    cases h : p reqIdx <;> simp [loopAux, h]
  | succ fuel ih =>
    intro count reqIdx st
    cases h : p reqIdx with
    | error e => simp [loopAux, h]
    | ok response =>
      cases hpc : parseFunctionCall response with
      | none => simp [loopAux, h, hpc]
      | some fc =>
        cases hex : executeTool reg fc.name fc.parameters with
        | ok result => simpa [loopAux, h, hpc, hex, pushCur] using ih _ _ _
        | error m => simpa [loopAux, h, hpc, hex, pushCur] using ih _ _ _

/-- C9: generateWithTools works on a private spread copy of the caller
message array; however the run settles, the caller array is exactly the
input sequence — the appended assistant and tool messages live only in
the working copy. -/
theorem generateWithTools_private_copy (p : Nat → Except String String) (reg : Registry)
    (mo : Option Nat) (msgs : List Msg) :
    (generateWithTools p reg mo msgs).st.caller = msgs :=
  loopAux_caller p reg (mo.getD 5) 0 0 ⟨msgs, msgs⟩

/-- The assistant/tool message pairs appended by the loop, with the
tool_call_id of the i-th pair being the decimal string of i. -/
def toolBlocks : Nat → List (String × String) → List Msg
  | _, [] => []
  | i, (a, r) :: rest => assistantMsg a :: toolMsg r (toString i) :: toolBlocks (i + 1) rest

/-- Shape of the working copy after the loop: the initial sequence
followed by assistant/tool pairs whose ids continue the running count. -/
theorem loopAux_current_shape (p : Nat → Except String String) (reg : Registry) :
    ∀ (fuel count reqIdx : Nat) (st : ArrSt),
      ∃ pairs : List (String × String),
        (loopAux p reg fuel count reqIdx st).st.current
            = st.current ++ toolBlocks (count + 1) pairs
        ∧ (loopAux p reg fuel count reqIdx st).calls = count + pairs.length
        ∧ ∀ pr ∈ pairs, parseFunctionCall pr.1 ≠ none := by
  intro fuel
  induction fuel with
  | zero =>
    intro count reqIdx st
    refine ⟨[], ?_, ?_, by simp⟩ <;> cases h : p reqIdx <;> simp [loopAux, h, toolBlocks]
  | succ fuel ih =>
    intro count reqIdx st
    cases h : p reqIdx with
    | error e => exact ⟨[], by simp [loopAux, h, toolBlocks], by simp [loopAux, h], by simp⟩
    | ok response =>
      cases hpc : parseFunctionCall response with
      | none => exact ⟨[], by simp [loopAux, h, hpc, toolBlocks], by simp [loopAux, h, hpc], by simp⟩
      | some fc =>
        cases hex : executeTool reg fc.name fc.parameters with
        | ok result =>
          obtain ⟨pairs, h1, h2, h3⟩ := ih (count + 1) (reqIdx + 1)
            (pushCur (pushCur st (assistantMsg response))
              (toolMsg (toolResponseString result) (toString (count + 1))))
          refine ⟨(response, toolResponseString result) :: pairs, ?_, ?_, ?_⟩
          · simp only [loopAux, h, hpc, hex]
            simpa [pushCur, toolBlocks, List.append_assoc] using h1
          · simp only [loopAux, h, hpc, hex]
            simp [h2]
            omega
          · intro pr hpr
            rcases List.mem_cons.mp hpr with rfl | hmem
            · simp [hpc]
            · exact h3 pr hmem
        | error m =>
          obtain ⟨pairs, h1, h2, h3⟩ := ih (count + 1) (reqIdx + 1)
            (pushCur (pushCur st (assistantMsg response))
              (toolMsg ("Error: " ++ m) (toString (count + 1))))
          refine ⟨(response, "Error: " ++ m) :: pairs, ?_, ?_, ?_⟩
          · simp only [loopAux, h, hpc, hex]
            simpa [pushCur, toolBlocks, List.append_assoc] using h1
          · simp only [loopAux, h, hpc, hex]
            simp [h2]
            omega
          · intro pr hpr
            rcases List.mem_cons.mp hpr with rfl | hmem
            · simp [hpc]
            · exact h3 pr hmem

/-- C2: the working message sequence of a run is always the original
sequence followed by assistant/tool message pairs: every tool message
directly follows the assistant message whose parsed call produced it, its
tool_call_id is the decimal string of the running dispatch count starting
at 1, and the returned final answer is never appended to the sequence. -/
theorem generateWithTools_message_invariant (p : Nat → Except String String)
    (reg : Registry) (mo : Option Nat) (msgs : List Msg) :
    ∃ pairs : List (String × String),
      (generateWithTools p reg mo msgs).st.current = msgs ++ toolBlocks 1 pairs
      ∧ (generateWithTools p reg mo msgs).calls = pairs.length
      ∧ ∀ pr ∈ pairs, parseFunctionCall pr.1 ≠ none := by
  obtain ⟨pairs, h1, h2, h3⟩ := loopAux_current_shape p reg (mo.getD 5) 0 0 ⟨msgs, msgs⟩
  exact ⟨pairs, by simpa [generateWithTools] using h1,
    by simpa [generateWithTools] using h2, h3⟩

/-- A provider that always answers with a parseable envelope drives the
loop through all its remaining iterations and one final request. -/
theorem loopAux_all_envelopes (p : Nat → Except String String) (reg : Registry)
    (h : ∀ i, ∃ t fc, p i = Except.ok t ∧ parseFunctionCall t = some fc) :
    ∀ (fuel count reqIdx : Nat) (st : ArrSt), ∃ (t : String) (st2 : ArrSt),
      p (reqIdx + fuel) = Except.ok t
      ∧ loopAux p reg fuel count reqIdx st
          = ⟨Except.ok t, st2, reqIdx + fuel + 1, count + fuel⟩ := by
  intro fuel
  induction fuel with
  | zero =>
    intro count reqIdx st
    obtain ⟨t, fc, hok, _⟩ := h reqIdx
    exact ⟨t, st, by simpa using hok, by simp [loopAux, hok]⟩
  | succ fuel ih =>
    intro count reqIdx st
    obtain ⟨t0, fc0, hok, hparse⟩ := h reqIdx
    cases hex : executeTool reg fc0.name fc0.parameters with
    | ok result =>
      obtain ⟨t, st2, hpt, heq⟩ := ih (count + 1) (reqIdx + 1)
        (pushCur (pushCur st (assistantMsg t0))
          (toolMsg (toolResponseString result) (toString (count + 1))))
      have e0 : reqIdx + (fuel + 1) = reqIdx + 1 + fuel := by omega
      have e1 : reqIdx + 1 + fuel + 1 = reqIdx + (fuel + 1) + 1 := by omega
      have e2 : count + 1 + fuel = count + (fuel + 1) := by omega
      refine ⟨t, st2, by rw [e0]; exact hpt, ?_⟩
      simp only [loopAux, hok, hparse, hex]
      rw [heq, e1, e2]
    | error m =>
      obtain ⟨t, st2, hpt, heq⟩ := ih (count + 1) (reqIdx + 1)
        (pushCur (pushCur st (assistantMsg t0))
          (toolMsg ("Error: " ++ m) (toString (count + 1))))
      have e0 : reqIdx + (fuel + 1) = reqIdx + 1 + fuel := by omega
      have e1 : reqIdx + 1 + fuel + 1 = reqIdx + (fuel + 1) + 1 := by omega
      have e2 : count + 1 + fuel = count + (fuel + 1) := by omega
      refine ⟨t, st2, by rw [e0]; exact hpt, ?_⟩
      simp only [loopAux, hok, hparse, hex]
      rw [heq, e1, e2]

/-- C1: with a maxToolCalls bound of N at least 1 (5 when the option is
absent) and a provider that always returns a parseable call envelope,
generateWithTools issues exactly N parse-and-dispatch iterations plus one
final completion request and returns that final text verbatim: the final
text is not parsed for an envelope and dispatches stay at N. -/
theorem generateWithTools_bounded_termination (p : Nat → Except String String)
    (reg : Registry) (mo : Option Nat) (msgs : List Msg)
    (_hN : 1 ≤ mo.getD 5)
    (h : ∀ i, ∃ t fc, p i = Except.ok t ∧ parseFunctionCall t = some fc) :
    ∃ (t : String) (st2 : ArrSt), p (mo.getD 5) = Except.ok t
      ∧ generateWithTools p reg mo msgs
          = ⟨Except.ok t, st2, mo.getD 5 + 1, mo.getD 5⟩ := by
  obtain ⟨t, st2, h1, h2⟩ := loopAux_all_envelopes p reg h (mo.getD 5) 0 0 ⟨msgs, msgs⟩
  exact ⟨t, st2, by simpa using h1, by simpa [generateWithTools] using h2⟩

/-- The envelope a stub provider emits on every request. -/
def envAlways : String := "<function>\x7b\"name\":\"loop_tool\",\"parameters\":\x7b\x7d\x7d</function>"

/-- The parsed call carried by envAlways. -/
def envAlwaysCall : FunctionCall :=
  ⟨some (Json.str "loop_tool"), Json.obj JsonFields.nil⟩

/-- C1 witness: a stub provider that always emits a call envelope, with a
bound of 2 and an empty registry. -/
theorem generateWithTools_bounded_termination_witness :
    ∃ (t : String) (st2 : ArrSt),
      (fun _ : Nat => Except.ok (ε := String) envAlways) ((some 2 : Option Nat).getD 5) = Except.ok t
      ∧ generateWithTools (fun _ => Except.ok envAlways) [] (some 2) []
          = ⟨Except.ok t, st2, (some 2 : Option Nat).getD 5 + 1, (some 2 : Option Nat).getD 5⟩ :=
  generateWithTools_bounded_termination (fun _ => Except.ok envAlways) [] (some 2) []
    (by decide) (fun i => ⟨envAlways, envAlwaysCall, rfl, by decide⟩)

/-- An error result of the loop always originates from a provider
request; the loop itself never produces one. -/
theorem loopAux_error_src (p : Nat → Except String String) (reg : Registry) :
    ∀ (fuel count reqIdx : Nat) (st : ArrSt) (e : String),
      (loopAux p reg fuel count reqIdx st).result = Except.error e →
      ∃ i, p i = Except.error e := by
  intro fuel
  induction fuel with
  | zero =>
    intro count reqIdx st e h
    cases hp : p reqIdx with
    | error e2 =>
      refine ⟨reqIdx, ?_⟩
      simp [loopAux, hp] at h
      rw [hp, h]
    | ok t => simp [loopAux, hp] at h
  | succ fuel ih =>
    intro count reqIdx st e h
    cases hp : p reqIdx with
    | error e2 =>
      refine ⟨reqIdx, ?_⟩
      simp [loopAux, hp] at h
      rw [hp, h]
    | ok response =>
      cases hpc : parseFunctionCall response with
      | none => simp [loopAux, hp, hpc] at h
      | some fc =>
        cases hex : executeTool reg fc.name fc.parameters with
        | ok result =>
          simp only [loopAux, hp, hpc, hex] at h
          exact ih _ _ _ _ h
        | error m =>
          simp only [loopAux, hp, hpc, hex] at h
          exact ih _ _ _ _ h

/-- C5: a failing dispatch — unregistered name or raising implementation —
is absorbed: the loop appends the assistant message and a tool message
whose content is the textual error tagged with the current id, and simply
continues; in particular an unregistered string name yields exactly the
not-registered message, and generateWithTools can only settle with an
error that came from the provider, never from a tool. -/
theorem generateWithTools_tool_failure_absorbed :
    (∀ (p : Nat → Except String String) (reg : Registry) (fuel count reqIdx : Nat)
        (st : ArrSt) (t : String) (fc : FunctionCall) (m : String),
        p reqIdx = Except.ok t → parseFunctionCall t = some fc →
        executeTool reg fc.name fc.parameters = Except.error m →
        loopAux p reg (fuel + 1) count reqIdx st
          = loopAux p reg fuel (count + 1) (reqIdx + 1)
              (pushCur (pushCur st (assistantMsg t))
                (toolMsg ("Error: " ++ m) (toString (count + 1)))))
  ∧ (∀ (reg : Registry) (n : String) (params : Json),
        lookupImpl reg n = none →
        executeTool reg (some (Json.str n)) params = Except.error (notRegisteredMsg n))
  ∧ (∀ (p : Nat → Except String String) (reg : Registry) (mo : Option Nat)
        (msgs : List Msg) (e : String),
        (generateWithTools p reg mo msgs).result = Except.error e →
        ∃ i, p i = Except.error e) := by
  refine ⟨?_, ?_, ?_⟩
  · intro p reg fuel count reqIdx st t fc m hok hparse hex
    simp only [loopAux, hok, hparse, hex]
  · intro reg n params h
    simp [executeTool, toolNameKey, h, jsDisplay, jsToString]
  · intro p reg mo msgs e h
    exact loopAux_error_src p reg (mo.getD 5) 0 0 ⟨msgs, msgs⟩ e h

/-- The envelope naming a tool that is never registered. -/
def envUnreg : String :=
  "<function>\x7b\"name\":\"unregistered_tool\",\"parameters\":\x7b\x7d\x7d</function>"

/-- The parsed call carried by envUnreg. -/
def envUnregCall : FunctionCall :=
  ⟨some (Json.str "unregistered_tool"), Json.obj JsonFields.nil⟩

/-- C5 witness: one loop iteration over an empty registry turns the
unregistered-tool failure into an Error tool message with id 1 and
continues. -/
theorem generateWithTools_tool_failure_absorbed_witness :
    loopAux (fun _ => Except.ok envUnreg) [] 1 0 0 ⟨[], []⟩
      = loopAux (fun _ => Except.ok envUnreg) [] 0 1 1
          (pushCur (pushCur ⟨[], []⟩ (assistantMsg envUnreg))
            (toolMsg ("Error: " ++ notRegisteredMsg "unregistered_tool") (toString 1))) :=
  generateWithTools_tool_failure_absorbed.1 (fun _ => Except.ok envUnreg) [] 0 0 0
    ⟨[], []⟩ envUnreg envUnregCall (notRegisteredMsg "unregistered_tool")
    rfl (by decide) (by decide)

/-- C4: parseFunctionCall is total and explicit about absence: with no
recognized envelope it returns none, and with an envelope whose trimmed
body fails to JSON-parse it also returns none — a malformed body is
indistinguishable from no call at all. -/
theorem parseFunctionCall_silent_absence :
    (∀ s : String, extractTagged fnOpenTag fnCloseTag s.data = none →
        extractTagged tcOpenTag tcCloseTag s.data = none → parseFunctionCall s = none)
  ∧ (∀ (s : String) (i : List Char), extractTagged fnOpenTag fnCloseTag s.data = some i →
        jsonParse (trimChars i) = none → parseFunctionCall s = none)
  ∧ (∀ (s : String) (i : List Char), extractTagged fnOpenTag fnCloseTag s.data = none →
        extractTagged tcOpenTag tcCloseTag s.data = some i →
        jsonParse (trimChars i) = none → parseFunctionCall s = none) := by
  refine ⟨?_, ?_, ?_⟩
  · intro s h1 h2
    simp [parseFunctionCall, h1, h2]
  · intro s i h1 h2
    simp [parseFunctionCall, h1, h2]
  · intro s i h1 h2 h3
    simp [parseFunctionCall, h1, h2, h3]

/-- C4 witness: no envelope at all, and a malformed envelope body. -/
theorem parseFunctionCall_silent_absence_witness :
    parseFunctionCall "hello, no calls here" = none
  ∧ parseFunctionCall "<function>not json</function>" = none :=
  ⟨parseFunctionCall_silent_absence.1 "hello, no calls here" (by decide) (by decide),
   parseFunctionCall_silent_absence.2.1 "<function>not json</function>" "not json".data
     (by decide) (by decide)⟩

/-- A function envelope whose trimmed body parses to a non-null value
yields the extracted call. -/
theorem parseFunctionCall_fn_nonnull (s : String) (i : List Char) (v : Json)
    (h1 : extractTagged fnOpenTag fnCloseTag s.data = some i)
    (h2 : jsonParse (trimChars i) = some v) (hnn : v ≠ Json.null) :
    parseFunctionCall s = some (callOfBody v) := by
  cases v <;> first
    | exact absurd rfl hnn
    | simp [parseFunctionCall, h1, h2]

/-- With no function envelope, a tool_call envelope whose trimmed body
parses to a non-null value yields the extracted call. -/
theorem parseFunctionCall_tc_nonnull (s : String) (i : List Char) (v : Json)
    (h0 : extractTagged fnOpenTag fnCloseTag s.data = none)
    (h1 : extractTagged tcOpenTag tcCloseTag s.data = some i)
    (h2 : jsonParse (trimChars i) = some v) (hnn : v ≠ Json.null) :
    parseFunctionCall s = some (callOfBody v) := by
  cases v <;> first
    | exact absurd rfl hnn
    | simp [parseFunctionCall, h0, h1, h2]

/-- A body parsing to JSON null hits the caught property-access throw:
the result is absence, for either envelope format. -/
theorem parseFunctionCall_nullbody (s : String) (i : List Char)
    (h : (extractTagged fnOpenTag fnCloseTag s.data = some i)
        ∨ (extractTagged fnOpenTag fnCloseTag s.data = none
            ∧ extractTagged tcOpenTag tcCloseTag s.data = some i))
    (h2 : jsonParse (trimChars i) = some Json.null) :
    parseFunctionCall s = none := by
  rcases h with h1 | ⟨h0, h1⟩
  · simp [parseFunctionCall, h1, h2]
  · simp [parseFunctionCall, h0, h1, h2]

/-- C3 counterexample: at the input with a function envelope around the
body null, the envelope matches and the body JSON-parses to a value, yet
no call is returned — the name property access on null throws and the
catch yields absence, refuting the claim that every match with a
JSON-parseable body produces a call with the extracted fields. -/
theorem parseFunctionCall_nullbody_counterexample :
    extractTagged fnOpenTag fnCloseTag ("<function>null</function>" : String).data
      = some ("null" : String).data
    ∧ jsonParse (trimChars ("null" : String).data) = some Json.null
    ∧ parseFunctionCall "<function>null</function>" = none :=
  ⟨by decide, by decide, by decide⟩

/-- C3 as amended: the two envelope formats are tried in fixed priority
order — a function wrapper first, a tool_call wrapper only when no
function wrapper matches — and on a match whose body parses to a
non-null value the name is read directly from the name field while the
parameters come from the parameters field, falling back to the arguments
field when parameters is absent and to the empty mapping when both are
absent; when the body parses to JSON null, the property access throws
inside the try block and the caught error yields the absence result. -/
theorem parseFunctionCall_priority_and_fields :
    (∀ (s : String) (i : List Char) (v : Json),
        extractTagged fnOpenTag fnCloseTag s.data = some i →
        jsonParse (trimChars i) = some v → v ≠ Json.null →
        parseFunctionCall s = some (callOfBody v))
  ∧ (∀ (s : String) (i : List Char) (v : Json),
        extractTagged fnOpenTag fnCloseTag s.data = none →
        extractTagged tcOpenTag tcCloseTag s.data = some i →
        jsonParse (trimChars i) = some v → v ≠ Json.null →
        parseFunctionCall s = some (callOfBody v))
  ∧ (∀ (s : String) (i : List Char),
        extractTagged fnOpenTag fnCloseTag s.data = some i →
        jsonParse (trimChars i) = some Json.null →
        parseFunctionCall s = none)
  ∧ (∀ (s : String) (i : List Char),
        extractTagged fnOpenTag fnCloseTag s.data = none →
        extractTagged tcOpenTag tcCloseTag s.data = some i →
        jsonParse (trimChars i) = some Json.null →
        parseFunctionCall s = none)
  ∧ (∀ v : Json, (callOfBody v).name = objGet v "name")
  ∧ (∀ (v pv : Json), objGet v "parameters" = some pv → jsTruthy pv = true →
        (callOfBody v).parameters = pv)
  ∧ (∀ (v av : Json), objGet v "parameters" = none → objGet v "arguments" = some av →
        jsTruthy av = true → (callOfBody v).parameters = av)
  ∧ (∀ v : Json, objGet v "parameters" = none → objGet v "arguments" = none →
        (callOfBody v).parameters = Json.obj JsonFields.nil) := by
  refine ⟨?_, ?_, ?_, ?_, ?_, ?_, ?_, ?_⟩
  · intro s i v h1 h2 hnn
    exact parseFunctionCall_fn_nonnull s i v h1 h2 hnn
  · intro s i v h0 h1 h2 hnn
    exact parseFunctionCall_tc_nonnull s i v h0 h1 h2 hnn
  · intro s i h1 h2
    exact parseFunctionCall_nullbody s i (Or.inl h1) h2
  · intro s i h0 h1 h2
    exact parseFunctionCall_nullbody s i (Or.inr ⟨h0, h1⟩) h2
  · intro v
    rfl
  · intro v pv h1 h2
    simp [callOfBody, jsOrD, h1, h2]
  · intro v av h1 h2 h3
    simp [callOfBody, jsOrD, h1, h2, h3]
  · intro v h1 h2
    simp [callOfBody, jsOrD, h1, h2]

/-- The Hermes-format example body from the specification. -/
def hermesBody : Json :=
  Json.obj (JsonFields.cons "name" (Json.str "g")
    (JsonFields.cons "arguments"
      (Json.obj (JsonFields.cons "b" (Json.num 2) JsonFields.nil)) JsonFields.nil))

/-- C3 witness: the tool_call envelope with an arguments field falls back
to arguments for the parameters of the returned call, and a null-body
function envelope yields absence. -/
theorem parseFunctionCall_priority_and_fields_witness :
    parseFunctionCall "<tool_call>\x7b\"name\":\"g\",\"arguments\":\x7b\"b\":2\x7d\x7d</tool_call>"
      = some (callOfBody hermesBody)
  ∧ (callOfBody hermesBody).parameters
      = Json.obj (JsonFields.cons "b" (Json.num 2) JsonFields.nil)
  ∧ (callOfBody hermesBody).name = some (Json.str "g")
  ∧ parseFunctionCall "<function> null </function>" = none :=
  ⟨parseFunctionCall_priority_and_fields.2.1
      "<tool_call>\x7b\"name\":\"g\",\"arguments\":\x7b\"b\":2\x7d\x7d</tool_call>"
      "\x7b\"name\":\"g\",\"arguments\":\x7b\"b\":2\x7d\x7d".data hermesBody
      (by decide) (by decide) (by decide) (by decide),
   parseFunctionCall_priority_and_fields.2.2.2.2.2.2.1 hermesBody
      (Json.obj (JsonFields.cons "b" (Json.num 2) JsonFields.nil))
      (by decide) (by decide) (by decide),
   by decide,
   parseFunctionCall_priority_and_fields.2.2.1 "<function> null </function>"
      " null ".data (by decide) (by decide)⟩

/-- Regex semantics on a framed input: when the open tag first occurs at
the frame position and the close tag first occurs right after the body,
extraction returns exactly the body. -/
theorem extractTagged_framed (openTag closeTag pre body suf : List Char)
    (h1 : firstIdxOf openTag (pre ++ openTag ++ body ++ closeTag ++ suf) = some pre.length)
    (h2 : firstIdxOf closeTag (body ++ closeTag ++ suf) = some body.length) :
    extractTagged openTag closeTag (pre ++ openTag ++ body ++ closeTag ++ suf) = some body := by
  have hassoc : pre ++ openTag ++ body ++ closeTag ++ suf
      = (pre ++ openTag) ++ (body ++ closeTag ++ suf) := by
    simp [List.append_assoc]
  have hdrop : (pre ++ openTag ++ body ++ closeTag ++ suf).drop (pre.length + openTag.length)
      = body ++ closeTag ++ suf := by
    rw [hassoc, ← List.length_append]
    exact List.drop_left _ _
  simp only [extractTagged, h1]
  rw [hdrop, h2]
  simp only [List.append_assoc, List.take_left]

/-- C10: an envelope is accepted anywhere in the response text — for any
prefix and suffix around a well-formed envelope (all possibly multi-line),
as long as the envelope is the first occurrence of its tags and its body
parses to a non-null value (a brace-delimited body as in the claim parses
to an object, hence non-null; a null body instead hits the caught
property-access throw), parsing succeeds and returns the call read from
that first envelope; the tool_call variant additionally requires that no
function wrapper matches, by the priority order. -/
theorem parseFunctionCall_envelope_anywhere :
    (∀ (pre body suf : List Char) (v : Json),
        firstIdxOf fnOpenTag (pre ++ fnOpenTag ++ body ++ fnCloseTag ++ suf) = some pre.length →
        firstIdxOf fnCloseTag (body ++ fnCloseTag ++ suf) = some body.length →
        jsonParse (trimChars body) = some v → v ≠ Json.null →
        parseFunctionCall (String.mk (pre ++ fnOpenTag ++ body ++ fnCloseTag ++ suf))
          = some (callOfBody v))
  ∧ (∀ (pre body suf : List Char) (v : Json),
        extractTagged fnOpenTag fnCloseTag (pre ++ tcOpenTag ++ body ++ tcCloseTag ++ suf)
          = none →
        firstIdxOf tcOpenTag (pre ++ tcOpenTag ++ body ++ tcCloseTag ++ suf) = some pre.length →
        firstIdxOf tcCloseTag (body ++ tcCloseTag ++ suf) = some body.length →
        jsonParse (trimChars body) = some v → v ≠ Json.null →
        parseFunctionCall (String.mk (pre ++ tcOpenTag ++ body ++ tcCloseTag ++ suf))
          = some (callOfBody v)) := by
  constructor
  · intro pre body suf v h1 h2 h3 hnn
    have hext := extractTagged_framed fnOpenTag fnCloseTag pre body suf h1 h2
    exact parseFunctionCall_fn_nonnull
      (String.mk (pre ++ fnOpenTag ++ body ++ fnCloseTag ++ suf)) body v hext h3 hnn
  · intro pre body suf v h0 h1 h2 h3 hnn
    have hext := extractTagged_framed tcOpenTag tcCloseTag pre body suf h1 h2
    exact parseFunctionCall_tc_nonnull
      (String.mk (pre ++ tcOpenTag ++ body ++ tcCloseTag ++ suf)) body v h0 hext h3 hnn

/-- Prose before a multi-line C10 witness envelope. -/
def c10pre : List Char := "I will call a function now.\nHere it is:\n".data

/-- A multi-line envelope body for the C10 witness. -/
def c10body : List Char :=
  "\n\x7b\"name\": \"f\",\n \"parameters\": \x7b\"a\": 1\x7d\n\x7d\n".data

/-- Prose after the C10 witness envelope. -/
def c10suf : List Char := "\nDone.".data

/-- The parsed body of the C10 witness envelope. -/
def c10val : Json :=
  Json.obj (JsonFields.cons "name" (Json.str "f")
    (JsonFields.cons "parameters"
      (Json.obj (JsonFields.cons "a" (Json.num 1) JsonFields.nil)) JsonFields.nil))

/-- C10 witness: a function envelope with a multi-line body buried in
multi-line prose still parses to its call. -/
theorem parseFunctionCall_envelope_anywhere_witness :
    parseFunctionCall (String.mk (c10pre ++ fnOpenTag ++ c10body ++ fnCloseTag ++ c10suf))
      = some (callOfBody c10val) :=
  parseFunctionCall_envelope_anywhere.1 c10pre c10body c10suf c10val
    (by decide) (by decide) (by decide) (by decide)

/-- The empty string has no characters. -/
theorem strDataNil : ("" : String).data = [] := rfl

/-- splitNl never returns the empty list of lines. -/
theorem splitNl_ne_nil : ∀ (s : List Char), splitNl s ≠ [] := by
  intro s
  induction s with
  | nil => simp [splitNl]
  | cons c rest ih =>
    by_cases hc : c = Char.ofNat 10
    · simp [splitNl, hc]
    · cases hsr : splitNl rest with
      | nil => exact absurd hsr ih
      | cons l ls => simp [splitNl, hc, hsr]

/-- A leading newline opens an empty line. -/
theorem splitNl_cons_nl (y : List Char) :
    splitNl (Char.ofNat 10 :: y) = [] :: splitNl y := by
  simp [splitNl]

/-- Splitting distributes over a newline separator. -/
theorem splitNl_append : ∀ (x y : List Char),
    splitNl (x ++ Char.ofNat 10 :: y) = splitNl x ++ splitNl y := by
  intro x
  induction x with
  | nil => intro y; simp [splitNl]
  | cons c rest ih =>
    intro y
    by_cases hc : c = Char.ofNat 10
    · simp [splitNl, hc, ih]
    · cases hsx : splitNl rest with
      | nil => exact absurd hsx (splitNl_ne_nil rest)
      | cons hh tt =>
        have hrw : splitNl (rest ++ Char.ofNat 10 :: y) = hh :: (tt ++ splitNl y) := by
          rw [ih, hsx]; rfl
        simp [splitNl, hc, hrw, hsx]

/-- A newline-free text is a single line. -/
theorem noNl_splitNl : ∀ (s : List Char), Char.ofNat 10 ∉ s → splitNl s = [s] := by
  intro s
  induction s with
  | nil => intro _; rfl
  | cons c rest ih =>
    intro h
    have hc : ¬(c = Char.ofNat 10) := fun hcc => h (by simp [hcc])
    have hr : Char.ofNat 10 ∉ rest := fun hm => h (by simp [hm])
    simp [splitNl, hc, ih hr]

/-- The lines of a newline-join of newline-free texts are exactly those
texts, in order. -/
theorem splitNl_joinSep : ∀ (l : List String), l ≠ [] →
    (∀ x ∈ l, Char.ofNat 10 ∉ x.data) →
    splitNl (joinSep "\n" l).data = l.map String.data := by
  intro l
  induction l with
  | nil => intro h; exact absurd rfl h
  | cons y rest ih =>
    intro _ hnl
    cases rest with
    | nil =>
      simpa [joinSep] using noNl_splitNl y.data (hnl y (by simp))
    | cons z zs =>
      have h1n : ("\n" : String).data = [Char.ofNat 10] := by decide
      have hd : (joinSep "\n" (y :: z :: zs)).data
          = y.data ++ Char.ofNat 10 :: (joinSep "\n" (z :: zs)).data := by
        simp [joinSep, strDataAppend, h1n, List.append_assoc]
      rw [hd, splitNl_append, noNl_splitNl y.data (hnl y (by simp)),
          ih (by simp) (fun x hx => hnl x (by simp [hx]))]
      simp

/-- Each member of a newline-join occurs in it as a segment. -/
theorem joinSep_infix : ∀ (l : List String) (x : String), x ∈ l →
    ∃ a b, (joinSep "\n" l).data = a ++ x.data ++ b := by
  intro l
  induction l with
  | nil => intro x hx; exact absurd hx (List.not_mem_nil x)
  | cons y rest ih =>
    intro x hx
    cases rest with
    | nil =>
      have : x = y := by simpa using hx
      subst this
      exact ⟨[], [], by simp [joinSep]⟩
    | cons z zs =>
      rcases List.mem_cons.mp hx with rfl | hmem
      · exact ⟨[], ("\n" : String).data ++ (joinSep "\n" (z :: zs)).data,
          by simp [joinSep, strDataAppend, List.append_assoc]⟩
      · obtain ⟨a, b, hab⟩ := ih x hmem
        exact ⟨y.data ++ ("\n" : String).data ++ a, b,
          by simp [joinSep, strDataAppend, hab, List.append_assoc]⟩

/-- Opening of the serialized tool declaration up to the name value. -/
def serNamePre : String :=
  lbraceStr ++ quoteJson "type" ++ ":" ++ quoteJson "function" ++ ","
    ++ quoteJson "function" ++ ":" ++ lbraceStr ++ quoteJson "name" ++ ":" ++ "\""

/-- Middle of the serialized tool declaration between name and
description values. -/
def serDescMid : String := "\"" ++ "," ++ quoteJson "description" ++ ":" ++ "\""

/-- Middle of the serialized tool declaration between description and
parameters values. -/
def serParamsMid : String := "\"" ++ "," ++ quoteJson "parameters" ++ ":"

/-- Closing braces of the serialized tool declaration. -/
def serEnd : String := rbraceStr ++ rbraceStr

/-- The serialized tool declaration decomposes around its three variable
payloads. -/
theorem serializeToolDef_data (t : ToolDefinition) :
    (serializeToolDef t).data
      = serNamePre.data ++ (escapeJsonString t.function.name).data
        ++ serDescMid.data ++ (escapeJsonString t.function.description).data
        ++ serParamsMid.data ++ (stringifyJson t.function.parameters).data ++ serEnd.data := by
  simp [serializeToolDef, toolDefToJson, stringifyJson, stringifyFields, quoteJson,
        serNamePre, serDescMid, serParamsMid, serEnd, strDataAppend, strDataNil,
        List.append_assoc]

/-- An escape-free tool name occurs verbatim in the serialized
declaration. -/
theorem serializeToolDef_name_infix (t : ToolDefinition)
    (h : escapeJsonString t.function.name = t.function.name) :
    ∃ a b, (serializeToolDef t).data = a ++ t.function.name.data ++ b := by
  refine ⟨serNamePre.data,
    serDescMid.data ++ (escapeJsonString t.function.description).data
      ++ serParamsMid.data ++ (stringifyJson t.function.parameters).data ++ serEnd.data, ?_⟩
  rw [serializeToolDef_data, h]
  simp [List.append_assoc]

/-- Each tool of the list contributes its serialization to the built
prompt as a segment. -/
theorem build_contains_ser (base : String) (tools : List ToolDefinition)
    (t : ToolDefinition) (ht : t ∈ tools) :
    ∃ a b, (buildSystemPromptWithTools base tools).data
      = a ++ (serializeToolDef t).data ++ b := by
  obtain ⟨a, b, hab⟩ :=
    joinSep_infix (tools.map serializeToolDef) (serializeToolDef t)
      (List.mem_map_of_mem serializeToolDef ht)
  refine ⟨base.data ++ ("\n\n" : String).data ++ promptHeaderText.data
    ++ ("\n" : String).data ++ a,
    b ++ ("\n\n" : String).data ++ promptInstructions.data, ?_⟩
  simp [buildSystemPromptWithTools, strDataAppend, hab, List.append_assoc]

/-- An escape-free tool name occurs verbatim in the built prompt. -/
theorem build_contains_name (base : String) (tools : List ToolDefinition)
    (t : ToolDefinition) (ht : t ∈ tools)
    (hesc : escapeJsonString t.function.name = t.function.name) :
    ∃ a b, (buildSystemPromptWithTools base tools).data
      = a ++ t.function.name.data ++ b := by
  obtain ⟨a, b, hab⟩ := build_contains_ser base tools t ht
  obtain ⟨c, d, hcd⟩ := serializeToolDef_name_infix t hesc
  refine ⟨a ++ c, d ++ b, ?_⟩
  rw [hab, hcd]
  simp [List.append_assoc]

/-- The lines of the built prompt: the base prompt lines, a blank line,
the header line, one line for each tool declaration in input order, a
blank line, and the instruction block lines. -/
theorem build_lines (base : String) (tools : List ToolDefinition)
    (hne : tools ≠ [])
    (hnl : ∀ t ∈ tools, Char.ofNat 10 ∉ (serializeToolDef t).data) :
    splitNl (buildSystemPromptWithTools base tools).data
      = splitNl base.data ++ [[]] ++ [promptHeaderText.data]
        ++ tools.map (fun t => (serializeToolDef t).data)
        ++ [[]] ++ splitNl promptInstructions.data := by
  have h2n : ("\n\n" : String).data = [Char.ofNat 10, Char.ofNat 10] := by decide
  have h1n : ("\n" : String).data = [Char.ofNat 10] := by decide
  have hJ : splitNl (joinSep "\n" (tools.map serializeToolDef)).data
      = (tools.map serializeToolDef).map String.data := by
    apply splitNl_joinSep
    · simpa using hne
    · intro x hx
      obtain ⟨t, ht, rfl⟩ := List.mem_map.mp hx
      exact hnl t ht
  have hhdr : splitNl promptHeaderText.data = [promptHeaderText.data] := by decide
  have hdata : (buildSystemPromptWithTools base tools).data
      = base.data ++ Char.ofNat 10 :: (Char.ofNat 10 :: (promptHeaderText.data
        ++ Char.ofNat 10 :: ((joinSep "\n" (tools.map serializeToolDef)).data
        ++ Char.ofNat 10 :: (Char.ofNat 10 :: promptInstructions.data)))) := by
    simp only [buildSystemPromptWithTools, strDataAppend, List.append_assoc, h2n, h1n,
               List.cons_append, List.nil_append]
  rw [hdata, splitNl_append, splitNl_cons_nl, splitNl_append, hhdr, splitNl_append,
      splitNl_cons_nl, hJ]
  simp [List.append_assoc, List.map_map, Function.comp]

/-- C7: the built system prompt is exactly the base prompt, the fixed
header, the serialized declarations joined line by line in input order,
and the fixed instruction block; each tool declaration — and, when its
name needs no JSON escaping, the bare name — occurs in the output; the
construction is a pure function of its inputs. -/
theorem buildSystemPromptWithTools_layout :
    (∀ (base : String) (tools : List ToolDefinition),
        buildSystemPromptWithTools base tools
          = base ++ "\n\n" ++ promptHeaderText ++ "\n"
            ++ joinSep "\n" (tools.map serializeToolDef) ++ "\n\n" ++ promptInstructions)
  ∧ (∀ (base : String) (tools : List ToolDefinition), tools ≠ [] →
        (∀ t ∈ tools, Char.ofNat 10 ∉ (serializeToolDef t).data) →
        splitNl (buildSystemPromptWithTools base tools).data
          = splitNl base.data ++ [[]] ++ [promptHeaderText.data]
            ++ tools.map (fun t => (serializeToolDef t).data)
            ++ [[]] ++ splitNl promptInstructions.data)
  ∧ (∀ (base : String) (tools : List ToolDefinition) (t : ToolDefinition), t ∈ tools →
        ∃ a b, (buildSystemPromptWithTools base tools).data
          = a ++ (serializeToolDef t).data ++ b)
  ∧ (∀ (base : String) (tools : List ToolDefinition) (t : ToolDefinition), t ∈ tools →
        escapeJsonString t.function.name = t.function.name →
        ∃ a b, (buildSystemPromptWithTools base tools).data
          = a ++ t.function.name.data ++ b) :=
  ⟨fun _ _ => rfl, build_lines, build_contains_ser, build_contains_name⟩

/-- A concrete tool declaration for the C7 witness. -/
def weatherTool : ToolDefinition :=
  ⟨⟨"get_weather", "Get the weather",
    Json.obj (JsonFields.cons "type" (Json.str "object") JsonFields.nil)⟩⟩

/-- C7 witness: one concrete base prompt and tool list, with the line
layout conclusion instantiated. -/
theorem buildSystemPromptWithTools_layout_witness :
    splitNl (buildSystemPromptWithTools "You are a helpful assistant." [weatherTool]).data
      = splitNl ("You are a helpful assistant." : String).data ++ [[]]
        ++ [promptHeaderText.data]
        ++ [weatherTool].map (fun t => (serializeToolDef t).data)
        ++ [[]] ++ splitNl promptInstructions.data :=
  buildSystemPromptWithTools_layout.2.1 "You are a helpful assistant." [weatherTool]
    (by simp) (by decide)
